import Mathlib

/-!
Formal model of the percolation / attack-simulation engine of
`attack_simulator.py` (class `AttackSimulator` and the baseline generator
`run_random_baseline_analysis`), as a shallow embedding.

Modelling conventions:
* A networkx graph is a node list, an edge list and a directedness flag.
  Node identifiers are natural numbers (the loader reads integer ids).
* Python float arithmetic on the recorded series is modelled exactly, by
  rationals: `a / b` either raises ZeroDivisionError (when `b = 0`) or
  produces the exact quotient, written `mkRat a b` (equal to `(a : Rat) / b`
  whenever `b` is nonzero, see `pyDiv_ok`).
* `random.shuffle` and `nx.betweenness_centrality` are external library
  calls; they are passed in as oracle parameters (`shuffle`, `bc`).  The
  theorems quantify over these oracles (for `shuffle`, under the hypothesis
  that it permutes its input, which is what a shuffle does).
* Exceptions are modelled with `Except`: `ValueError` for an unknown
  strategy, `ZeroDivisionError` for a division by zero.
* The loop state additionally records the list of removed batches (the
  successive values of the source's local variable `batch`); this ghost
  field is write-only and lets theorems speak about which nodes each
  iteration removed.
-/

namespace AttackSim

/-- A graph as the engine sees it: node list, edge list, directedness flag. -/
structure Graph where
  nodes : List Nat
  edges : List (Nat × Nat)
  directed : Bool
deriving DecidableEq

/-- Membership test of an edge in the edge list. -/
def Graph.hasEdge (G : Graph) (a b : Nat) : Bool :=
  G.edges.contains (a, b)

/-- Adjacency ignoring direction (weak connectivity is used for components). -/
def adjUndir (G : Graph) (a b : Nat) : Bool :=
  G.hasEdge a b || G.hasEdge b a

/-- One step of component exploration: add every node adjacent to the
current front (keeping the already-collected nodes first). -/
def nbrStep (G : Graph) (s : List Nat) : List Nat :=
  s ++ G.nodes.filter (fun b => !s.contains b && s.any (fun a => adjUndir G a b))

/-- The (weakly) connected component of `v`: iterate one-step closure as many
times as there are nodes. -/
def compOf (G : Graph) (v : Nat) : List Nat :=
  (nbrStep G)^[G.nodes.length] [v]

/-- `AttackSimulator.get_gc_size_only`: the size of the largest (weakly)
connected component, `0` on the empty graph (the source returns `0` both for
`len(G) == 0` and when `max` sees no components). -/
def get_gc_size_only (G : Graph) : Nat :=
  G.nodes.foldr (fun v m => max (compOf G v).length m) 0

/-- Helper of `number_connected_components`: scan the node list, counting a
node's component once (first time one of its members is seen). -/
def countCompsAux (G : Graph) : List Nat → List Nat → Nat
  | [], _ => 0
  | v :: rest, seen =>
    if seen.contains v then countCompsAux G rest seen
    else countCompsAux G rest (seen ++ compOf G v) + 1

/-- `nx.number_connected_components` / `nx.number_weakly_connected_components`
(the source picks the weak variant for directed graphs; components here are
always computed ignoring direction, which covers both calls). -/
def number_connected_components (G : Graph) : Nat :=
  countCompsAux G G.nodes []

/-- `G.degree(n)`: number of incident edge endpoints equal to `n`. -/
def Graph.degree (G : Graph) (v : Nat) : Nat :=
  (G.edges.filter (fun e => e.1 == v)).length +
    (G.edges.filter (fun e => e.2 == v)).length

/-- `G.in_degree(n)`: number of edges pointing into `n`. -/
def Graph.in_degree (G : Graph) (v : Nat) : Nat :=
  (G.edges.filter (fun e => e.2 == v)).length

/-- `G.remove_nodes_from(batch)`: drop the nodes of `batch` and every edge
touching them. -/
def Graph.remove_nodes_from (G : Graph) (batch : List Nat) : Graph :=
  { nodes := G.nodes.filter (fun v => !batch.contains v)
    edges := G.edges.filter (fun e => !batch.contains e.1 && !batch.contains e.2)
    directed := G.directed }

/-- Insert `a` into a key-descending sorted list, after every element with a
strictly greater key and before every element with a smaller-or-equal key. -/
def insertDesc (f : Nat → Rat) (a : Nat) : List Nat → List Nat
  | [] => [a]
  | b :: bs => if f a < f b then b :: insertDesc f a bs else a :: b :: bs

/-- Python's stable `sorted(..., key=f, reverse=True)`: sort by key
descending, equal-keyed elements keeping their input order.  A stable sort
is unique as a function, so insertion sort models `sorted` exactly:
an element is inserted behind every strictly-greater key and, on ties,
before all later-occurring elements. -/
def sortDescBy (f : Nat → Rat) (l : List Nat) : List Nat :=
  l.foldr (insertDesc f) []

/-- Does the second character list start with the first one? -/
def listStarts : List Char → List Char → Bool
  | [], _ => true
  | _ :: _, [] => false
  | a :: as, b :: bs => a == b && listStarts as bs

/-- Is the first character list a contiguous sublist of the second? -/
def listSub (n : List Char) : List Char → Bool
  | [] => n.isEmpty
  | b :: bs => listStarts n (b :: bs) || listSub n bs

/-- Python's substring containment `needle in haystack`. -/
def pyIn (needle haystack : String) : Bool :=
  listSub needle.data haystack.data

/-- Lines 55-56 of the source: `k = 1000 if "approx" in strategy else None`,
then `if k and k > N: k = N`. -/
def betweennessK (strategy : String) (N : Nat) : Option Nat :=
  let k : Option Nat := if pyIn "approx" strategy then some 1000 else none
  match k with
  | some kv => if kv > N then some N else some kv
  | none => none

/-- The exceptions `simulate` can raise: `ValueError` for an unknown
strategy tag, `ZeroDivisionError` from a division by zero. -/
inductive SimError where
  | unknownStrategy : SimError
  | zeroDivision : SimError
deriving DecidableEq

/-- Python division `a / b` on the (nonnegative integer) quantities the
engine divides: raises ZeroDivisionError when `b = 0`, otherwise yields the
exact quotient (`mkRat a b = (a : Rat) / b`, see `pyDiv_ok`). -/
def pyDiv (a b : Nat) : Except SimError Rat :=
  if b = 0 then .error .zeroDivision else .ok (mkRat a b)

/-- Line 65 of the source: `chunk = max(1, int(N / steps))`.  `int()` on the
float quotient truncates toward zero, which is `Int.tdiv`; `N / steps`
raises ZeroDivisionError when `steps = 0`. -/
def pyChunk (N : Nat) (steps : Int) : Except SimError Nat :=
  if steps = 0 then .error .zeroDivision
  else .ok (max 1 (Int.tdiv N steps)).toNat

/-- The result dictionary `res = {'x': ..., 'gc': ..., 'frag': ...}`. -/
structure SimResult where
  x : List Rat
  gc : List Rat
  frag : List Nat
deriving DecidableEq

/-- The mutable state of the removal loop: working graph, `removed_count`,
the three result lists, plus the ghost record of the removed batches. -/
structure LoopState where
  G : Graph
  removed_count : Nat
  x : List Rat
  gc : List Rat
  frag : List Nat
  batches : List (List Nat)
deriving DecidableEq

/-- Lines 46-62 of the source: strategy dispatch producing the ranking
order `nodes`.  `random.shuffle` and `nx.betweenness_centrality` are the
oracles `shuffle` and `bc` (the latter receives the sample size `k` the
source computes). -/
def rankNodes (shuffle : List Nat → List Nat) (bc : Option Nat → Graph → Nat → Rat)
    (G : Graph) (strategy : String) : Except SimError (List Nat) :=
  if strategy = "random" then .ok (shuffle G.nodes)
  else if strategy = "degree" then
    .ok (sortDescBy (fun n => (G.degree n : Rat)) G.nodes)
  else if strategy = "indegree" then
    .ok (sortDescBy (fun n => (G.in_degree n : Rat)) G.nodes)
  else if pyIn "betweenness" strategy then
    .ok (sortDescBy (bc (betweennessK strategy G.nodes.length) G) G.nodes)
  else .error .unknownStrategy

/-- The engine object: the cloned graph and the two sizes snapshotted by
`__init__`. -/
structure AttackSimulator where
  graph : Graph
  initial_size : Nat
  initial_gc_size : Nat
deriving DecidableEq

/-- `AttackSimulator.__init__`: clone the source graph (value semantics),
record `initial_size` and `initial_gc_size`. -/
def AttackSimulator.mkSim (g : Graph) : AttackSimulator :=
  { graph := g
    initial_size := g.nodes.length
    initial_gc_size := get_gc_size_only g }

/-- Lines 77-103 of the source: the removal loop.  `fuel` is the number of
remaining iterations of `for _ in range(steps)`.  Each iteration removes the
next `chunk`-sized slice of the fixed order, recomputes the metrics, appends
one reading to each list, and stops early when the giant component is gone. -/
def simLoop (isize igc : Nat) (order : List Nat) (chunk N : Nat) :
    Nat → LoopState → Except SimError LoopState
  | 0, st => .ok st
  | fuel + 1, st =>
    if N ≤ st.removed_count then .ok st
    else
      let batch := (order.drop st.removed_count).take chunk
      let G2 := st.G.remove_nodes_from batch
      let rc2 := st.removed_count + batch.length
      let gcsz := get_gc_size_only G2
      let fr := number_connected_components G2
      match pyDiv rc2 isize, pyDiv gcsz igc with
      | .ok xv, .ok gv =>
        let st2 : LoopState :=
          { G := G2, removed_count := rc2, x := st.x ++ [xv], gc := st.gc ++ [gv]
            frag := st.frag ++ [fr], batches := st.batches ++ [batch] }
        if gcsz = 0 then .ok st2 else simLoop isize igc order chunk N fuel st2
      | .error e, _ => .error e
      | .ok _, .error e => .error e

/-- Lines 67-75 of the source: the initial readings recorded before any
removal: `x = [0.0]`, `gc = [1.0]`, the initial fragmentation count, and a
removed count of zero. -/
def initState (G : Graph) : LoopState :=
  { G := G, removed_count := 0, x := [0], gc := [1]
    frag := [number_connected_components G], batches := [] }

/-- `AttackSimulator.simulate`, lines 40-104, returning the full final loop
state: copy the graph, dispatch the strategy, compute the chunk size, record
the initial readings, then run the loop. -/
def simulateAux (shuffle : List Nat → List Nat) (bc : Option Nat → Graph → Nat → Rat)
    (sim : AttackSimulator) (strategy : String) (steps : Int) :
    Except SimError LoopState :=
  let G := sim.graph
  let N := G.nodes.length
  match rankNodes shuffle bc G strategy with
  | .error e => .error e
  | .ok order =>
    match pyChunk N steps with
    | .error e => .error e
    | .ok chunk =>
      simLoop sim.initial_size sim.initial_gc_size order chunk N steps.toNat
        (initState G)

/-- Forget the ghost fields: the dictionary the source returns. -/
def LoopState.result (st : LoopState) : SimResult :=
  { x := st.x, gc := st.gc, frag := st.frag }

/-- `sim.simulate(strategy, steps)` as the caller sees it. -/
def AttackSimulator.simulate (shuffle : List Nat → List Nat)
    (bc : Option Nat → Graph → Nat → Rat) (sim : AttackSimulator)
    (strategy : String) (steps : Int) : Except SimError SimResult :=
  (simulateAux shuffle bc sim strategy steps).map LoopState.result

/-- `simulate` in state-passing form: the method reads `self` but never
assigns any attribute of it, so the engine component of the returned pair is
the engine it was given. -/
def AttackSimulator.simulateSt (shuffle : List Nat → List Nat)
    (bc : Option Nat → Graph → Nat → Rat) (sim : AttackSimulator)
    (strategy : String) (steps : Int) :
    Except SimError SimResult × AttackSimulator :=
  (AttackSimulator.simulate shuffle bc sim strategy steps, sim)

/-- `run_single_network_analysis`, lines 191-196: build the engine once and
run one `simulate` call per requested attack, threading the engine state
through the calls. -/
def runSession (shuffle : List Nat → List Nat)
    (bc : Option Nat → Graph → Nat → Rat) (sim : AttackSimulator) :
    List (String × Int) → List (Except SimError SimResult) × AttackSimulator
  | [] => ([], sim)
  | c :: rest =>
    let r := AttackSimulator.simulateSt shuffle bc sim c.1 c.2
    let rs := runSession shuffle bc r.2 rest
    (r.1 :: rs.1, rs.2)

/-- Lines 213-215 of the source: the edge probability of the baseline
Erdős–Rényi graph, `p = (2 * E) / (N * (N - 1)) if N > 1 else 0`,
computed the same way whatever `G.is_directed()` says. -/
def run_random_baseline_p (G : Graph) : Rat :=
  let N := G.nodes.length
  let E := G.edges.length
  if 1 < N then (2 * E : Rat) / ((N : Rat) * ((N : Rat) - 1)) else 0

/-- Edge probability as the specification words it (§4.4): the undirected
formula `2E / (N·(N-1))`, but the directed analogue `E / (N·(N-1))` when the
source graph is directed, and `0` for `N ≤ 1`.  Stated only to be compared
with `run_random_baseline_p`. -/
def specBaselineP (G : Graph) : Rat :=
  let N := G.nodes.length
  let E := G.edges.length
  if N ≤ 1 then 0
  else if G.directed then (E : Rat) / ((N : Rat) * ((N : Rat) - 1))
  else (2 * E : Rat) / ((N : Rat) * ((N : Rat) - 1))

/-- Total length of a list of batches. -/
def sumLens (bs : List (List Nat)) : Nat :=
  (bs.map List.length).sum

/-- The strategy tags `simulate` accepts: the three exact tags, or any string
containing the substring "betweenness". -/
abbrev acceptedTag (s : String) : Prop :=
  s = "random" ∨ s = "degree" ∨ s = "indegree" ∨ pyIn "betweenness" s = true

deriving instance DecidableEq for Except

/-- A degenerate shuffle oracle (identity permutation), for concrete runs. -/
def idShuffle : List Nat → List Nat := fun l => l

/-- A degenerate betweenness oracle (constant score), for concrete runs. -/
def zeroBc : Option Nat → Graph → Nat → Rat := fun _ _ _ => 0

/-- A one-node graph. -/
def g1 : Graph := { nodes := [7], edges := [], directed := false }

/-- The empty graph. -/
def gEmpty : Graph := { nodes := [], edges := [], directed := true }

/-- Two nodes joined by one directed edge. -/
def gDir2 : Graph := { nodes := [0, 1], edges := [(0, 1)], directed := true }

/-- An undirected path on three nodes. -/
def gPath3 : Graph := { nodes := [0, 1, 2], edges := [(0, 1), (1, 2)], directed := false }

/-- An undirected graph with 100 nodes and 500 edges (the sizes named by the
specification's baseline example). -/
def g100 : Graph :=
  { nodes := List.range 100
    edges := (List.range 500).map (fun i => (i % 100, (i * 7 + 1) % 100))
    directed := false }

/-- Invariant of the removal loop, relative to the ranking `order` and the
initial node count `N` (also used as the divisor `initial_size`): the working
graph holds exactly the not-yet-removed suffix of the order, the removed
count is within bounds, `x` and `gc` grow in lockstep, `x` is strictly
increasing from `0` with last entry `removed_count / N`, and no `0` has been
recorded in `gc` (otherwise the loop would already have stopped). -/
structure MainInv (order : List Nat) (N : Nat) (st : LoopState) : Prop where
  perm : st.G.nodes.Perm (order.drop st.removed_count)
  rc_le : st.removed_count ≤ N
  len_x : st.x.length = st.gc.length
  chain : List.Chain' (· < ·) st.x
  head0 : st.x.head? = some 0
  lastx : st.x.getLast? = some (mkRat st.removed_count N)
  nozero : (0 : Rat) ∉ st.gc

/-- What holds of the loop's final state: as `MainInv`, except that `gc` may
now contain a `0` — but only as its very last entry, recorded at the moment
the fraction removed reached `1`. -/
structure MainPost (N : Nat) (st : LoopState) : Prop where
  rc_le : st.removed_count ≤ N
  len_x : st.x.length = st.gc.length
  chain : List.Chain' (· < ·) st.x
  head0 : st.x.head? = some 0
  lastx : st.x.getLast? = some (mkRat st.removed_count N)
  zero_end : ∀ i, st.gc[i]? = some 0 → i + 1 = st.gc.length ∧ st.x[i]? = some 1

/-! ### Arithmetic and list lemmas -/

theorem mkRat_nat_eq_div (a b : Nat) : mkRat a b = (a : Rat) / (b : Rat) := by
  rw [Rat.mkRat_eq_div]; push_cast; rfl

theorem mkRat_nat_zero (b : Nat) : mkRat ((0 : Nat) : Int) b = 0 := by
  rw [mkRat_nat_eq_div]; simp

theorem mkRat_nat_self (n : Nat) (h : n ≠ 0) : mkRat ((n : Nat) : Int) n = 1 := by
  rw [mkRat_nat_eq_div]
  exact div_self (by exact_mod_cast h)

theorem mkRat_nat_lt_iff (a b N : Nat) (hN : N ≠ 0) :
    mkRat (a : Int) N < mkRat (b : Int) N ↔ a < b := by
  rw [mkRat_nat_eq_div, mkRat_nat_eq_div]
  have hN' : (0 : Rat) < N := by exact_mod_cast Nat.pos_of_ne_zero hN
  rw [div_lt_div_iff₀ hN' hN']
  constructor
  · intro h
    exact_mod_cast lt_of_mul_lt_mul_right h (le_of_lt hN')
  · intro h
    exact mul_lt_mul_of_pos_right (by exact_mod_cast h) hN'

theorem mkRat_nat_le_one (a N : Nat) (h : a ≤ N) : mkRat (a : Int) N ≤ 1 := by
  rw [mkRat_nat_eq_div]
  rcases Nat.eq_zero_or_pos N with hN | hN
  · subst hN; simp
  · have hN' : (0 : Rat) < N := by exact_mod_cast hN
    rw [div_le_one hN']
    exact_mod_cast h

theorem mkRat_nat_eq_zero_iff (a N : Nat) (hN : N ≠ 0) :
    mkRat (a : Int) N = 0 ↔ a = 0 := by
  rw [mkRat_nat_eq_div, div_eq_zero_iff]
  constructor
  · intro h
    rcases h with h | h
    · exact_mod_cast h
    · exact absurd (by exact_mod_cast h) hN
  · intro h; exact Or.inl (by exact_mod_cast h)

theorem head?_append_of_head? {α : Type} (l l2 : List α) (a : α)
    (h : l.head? = some a) : (l ++ l2).head? = some a := by
  cases l with
  | nil => simp at h
  | cons x xs => simpa using h

theorem filter_append_not_mem (t d : List Nat) (hnd : (t ++ d).Nodup) :
    (t ++ d).filter (fun v => !t.contains v) = d := by
  rw [List.filter_append]
  have h1 : t.filter (fun v => !t.contains v) = [] := by
    rw [List.filter_eq_nil_iff]
    intro a ha
    simp [ha]
  have h2 : d.filter (fun v => !t.contains v) = d := by
    rw [List.filter_eq_self]
    intro a ha
    have hat : a ∉ t := fun hmem => (List.nodup_append.mp hnd).2.2 hmem ha
    simp [hat]
  rw [h1, h2, List.nil_append]

/-- Removing the first `c` elements of a duplicate-free list `l` from any
list permutation-equal to `l` leaves (a list equal to) `l.drop c`. -/
theorem filter_take_perm (m l : List Nat) (c : Nat) (hl : l.Nodup)
    (hm : m.Perm l) : (m.filter (fun v => !(l.take c).contains v)).Perm (l.drop c) := by
  have h1 : (l.filter (fun v => !(l.take c).contains v)) = l.drop c := by
    have h0 := filter_append_not_mem (l.take c) (l.drop c)
      (by rw [List.take_append_drop]; exact hl)
    rwa [List.take_append_drop] at h0
  rw [← h1]
  exact hm.filter _

/-! ### Lemmas about the embedded operations -/

theorem pyDiv_ok (a b : Nat) (hb : b ≠ 0) : pyDiv a b = .ok (mkRat a b) := by
  simp [pyDiv, hb]

theorem pyDiv_ok_elim (a b : Nat) (v : Rat) (h : pyDiv a b = .ok v) :
    b ≠ 0 ∧ v = mkRat a b := by
  by_cases hb : b = 0
  · simp [pyDiv, hb] at h
  · simp [pyDiv, hb] at h
    exact ⟨hb, h.symm⟩

theorem pyDiv_error_elim (a b : Nat) (e : SimError) (h : pyDiv a b = .error e) :
    e = .zeroDivision := by
  by_cases hb : b = 0
  · simp [pyDiv, hb] at h
    exact h.symm
  · simp [pyDiv, hb] at h

theorem pyChunk_ok_pos (N : Nat) (steps : Int) (c : Nat)
    (h : pyChunk N steps = .ok c) : 1 ≤ c := by
  by_cases hs : steps = 0
  · simp [pyChunk, hs] at h
  · simp [pyChunk, hs] at h
    have h1 : (1 : Int) ≤ max 1 (Int.tdiv N steps) := le_max_left _ _
    omega

theorem insertDesc_perm (f : Nat → Rat) (a : Nat) (l : List Nat) :
    (insertDesc f a l).Perm (a :: l) := by
  induction l with
  | nil => exact List.Perm.refl _
  | cons b bs ih =>
    rw [insertDesc]
    by_cases hc : f a < f b
    · rw [if_pos hc]
      exact (ih.cons b).trans (List.Perm.swap a b bs)
    · rw [if_neg hc]

theorem sortDescBy_perm (f : Nat → Rat) (l : List Nat) : (sortDescBy f l).Perm l := by
  induction l with
  | nil => exact List.Perm.refl _
  | cons x xs ih =>
    have hstep : sortDescBy f (x :: xs) = insertDesc f x (sortDescBy f xs) := rfl
    rw [hstep]
    exact (insertDesc_perm f x _).trans (ih.cons x)

theorem mem_nbrStep_iterate (G : Graph) (v : Nat) :
    ∀ (n : Nat) (s : List Nat), v ∈ s → v ∈ (nbrStep G)^[n] s := by
  intro n
  induction n with
  | zero => intro s h; simpa using h
  | succ n ih =>
    intro s h
    rw [Function.iterate_succ_apply]
    exact ih _ (List.mem_append_left _ h)

theorem mem_compOf_self (G : Graph) (v : Nat) : v ∈ compOf G v :=
  mem_nbrStep_iterate G v _ [v] (List.mem_singleton_self v)

theorem le_foldr_max (G : Graph) :
    ∀ (l : List Nat) (v : Nat), v ∈ l →
      (compOf G v).length ≤ l.foldr (fun w m => max (compOf G w).length m) 0 := by
  intro l
  induction l with
  | nil => intro v h; simp at h
  | cons w ws ih =>
    intro v h
    rcases List.mem_cons.mp h with h | h
    · subst h
      exact le_max_left _ _
    · exact le_trans (ih v h) (le_max_right _ _)

theorem get_gc_size_only_eq_zero_iff (G : Graph) :
    get_gc_size_only G = 0 ↔ G.nodes = [] := by
  constructor
  · intro h
    cases hn : G.nodes with
    | nil => rfl
    | cons v vs =>
      exfalso
      have hv : v ∈ G.nodes := by rw [hn]; exact List.mem_cons_self v vs
      have h1 : 0 < (compOf G v).length := List.length_pos_of_mem (mem_compOf_self G v)
      have h2 := le_foldr_max G G.nodes v hv
      unfold get_gc_size_only at h
      omega
  · intro h
    unfold get_gc_size_only
    rw [h]
    rfl

/-! ### Lemmas about the removal loop -/

/-- Once `removed_count` has reached `N` the loop immediately returns its
state unchanged (the `if removed_count >= N: break` guard). -/
theorem simLoop_done (isize igc : Nat) (order : List Nat) (chunk N : Nat)
    (fuel : Nat) (st : LoopState) (h : N ≤ st.removed_count) :
    simLoop isize igc order chunk N fuel st = .ok st := by
  cases fuel with
  | zero => rfl
  | succ fuel => simp [simLoop, h]

/-- The only exception the loop itself can raise is a division by zero. -/
theorem simLoop_error_elim (isize igc : Nat) (order : List Nat) (chunk N : Nat) :
    ∀ (fuel : Nat) (st : LoopState) (e : SimError),
      simLoop isize igc order chunk N fuel st = .error e → e = .zeroDivision := by
  intro fuel
  induction fuel with
  | zero =>
    intro st e h
    simp [simLoop] at h
  | succ fuel ih =>
    intro st e h
    simp only [simLoop] at h
    split at h
    · simp at h
    · split at h
      · split at h
        · simp at h
        · exact ih _ _ h
      · next e1 heq hx =>
        injection h with h
        subst h
        exact pyDiv_error_elim _ _ _ hx
      · next xv e1 hx hg =>
        injection h with h
        subst h
        exact pyDiv_error_elim _ _ _ hg

/-- The loop appends one reading to each of the three lists per iteration,
so it preserves their mutual length equality. -/
theorem simLoop_ok_lengths (isize igc : Nat) (order : List Nat) (chunk N : Nat) :
    ∀ (fuel : Nat) (st st' : LoopState),
      simLoop isize igc order chunk N fuel st = .ok st' →
      st.x.length = st.gc.length → st.frag.length = st.gc.length →
      st'.x.length = st'.gc.length ∧ st'.frag.length = st'.gc.length := by
  intro fuel
  induction fuel with
  | zero =>
    intro st st' h h1 h2
    simp only [simLoop] at h
    injection h with h
    subst h
    exact ⟨h1, h2⟩
  | succ fuel ih =>
    intro st st' h h1 h2
    simp only [simLoop] at h
    split at h
    · injection h with h
      subst h
      exact ⟨h1, h2⟩
    · split at h
      · split at h
        · injection h with h
          subst h
          constructor <;> simp [h1, h2]
        · refine ih _ _ h ?_ ?_ <;> simp [h1, h2]
      · simp at h
      · simp at h

/-- Every batch the loop removes is the slice of the fixed ranking order
that starts at the number of nodes already removed and has (at most) chunk
length. -/
theorem simLoop_batches (isize igc : Nat) (order : List Nat) (chunk N : Nat) :
    ∀ (fuel : Nat) (st st' : LoopState),
      simLoop isize igc order chunk N fuel st = .ok st' →
      sumLens st.batches = st.removed_count →
      (∀ i, i < st.batches.length →
        st.batches[i]? = some ((order.drop (sumLens (st.batches.take i))).take chunk)) →
      (∀ i, i < st'.batches.length →
        st'.batches[i]? = some ((order.drop (sumLens (st'.batches.take i))).take chunk)) := by
  intro fuel
  induction fuel with
  | zero =>
    intro st st' h h1 h2
    simp only [simLoop] at h
    injection h with h
    subst h
    exact h2
  | succ fuel ih =>
    intro st st' h h1 h2
    simp only [simLoop] at h
    split at h
    · injection h with h
      subst h
      exact h2
    · split at h
      · next xv gv hx hg =>
        have hsum2 : sumLens (st.batches ++ [(order.drop st.removed_count).take chunk]) =
            st.removed_count + ((order.drop st.removed_count).take chunk).length := by
          simp only [sumLens, List.map_append, List.sum_append, List.map_cons,
            List.map_nil, List.sum_cons, List.sum_nil] at h1 ⊢
          omega
        have hslice2 : ∀ i, i < (st.batches ++ [(order.drop st.removed_count).take chunk]).length →
            (st.batches ++ [(order.drop st.removed_count).take chunk])[i]? =
              some ((order.drop
                (sumLens ((st.batches ++ [(order.drop st.removed_count).take chunk]).take i))).take
                  chunk) := by
          intro i hilt
          simp only [List.length_append, List.length_singleton] at hilt
          rcases Nat.lt_or_ge i st.batches.length with hlt | hge
          · rw [List.getElem?_append, if_pos hlt,
              List.take_append_of_le_length (le_of_lt hlt)]
            exact h2 i hlt
          · have hieq : i = st.batches.length := by omega
            subst hieq
            rw [List.getElem?_concat_length,
              List.take_append_of_le_length (le_refl _), List.take_length, h1]
        split at h
        · injection h with h
          subst h
          exact hslice2
        · exact ih _ _ h hsum2 hslice2
      · simp at h
      · simp at h

/-- A state satisfying the loop invariant also satisfies the exit property
(the `gc`-zero clause holds vacuously: no zero has been recorded). -/
theorem mainInv_post (order : List Nat) (N : Nat) (st : LoopState)
    (hinv : MainInv order N st) : MainPost N st := by
  refine ⟨hinv.rc_le, hinv.len_x, hinv.chain, hinv.head0, hinv.lastx, ?_⟩
  intro i hi
  exact absurd (List.getElem?_mem hi) hinv.nozero

/-- Main correctness lemma of the removal loop (run with
`initial_size = N = length of the ranking order`, the configuration
`simulate` creates): the loop preserves `MainInv` and, on normal return,
establishes `MainPost`. -/
theorem simLoop_main (igc : Nat) (order : List Nat) (chunk N : Nat)
    (hchunk : 1 ≤ chunk) (hlen : order.length = N) (hnd : order.Nodup) :
    ∀ (fuel : Nat) (st st' : LoopState),
      simLoop N igc order chunk N fuel st = .ok st' →
      MainInv order N st → MainPost N st' := by
  intro fuel
  induction fuel with
  | zero =>
    intro st st' h hinv
    simp only [simLoop] at h
    injection h with h
    subst h
    exact mainInv_post order N st hinv
  | succ fuel ih =>
    intro st st' h hinv
    simp only [simLoop] at h
    split at h
    · injection h with h
      subst h
      exact mainInv_post order N st hinv
    · next hle =>
      have hrcN : st.removed_count < N := Nat.not_le.mp hle
      have hN0 : N ≠ 0 := by omega
      split at h
      · next xv gv hx hg =>
        have hdroplen : (order.drop st.removed_count).length = N - st.removed_count := by
          rw [List.length_drop, hlen]
        have hblen : ((order.drop st.removed_count).take chunk).length
            = min chunk (N - st.removed_count) := by
          rw [List.length_take, hdroplen]
        have hbpos : 0 < ((order.drop st.removed_count).take chunk).length := by
          rw [hblen]
          omega
        have hrc2le : st.removed_count + ((order.drop st.removed_count).take chunk).length ≤ N := by
          rw [hblen]
          omega
        obtain ⟨-, hxv⟩ := pyDiv_ok_elim _ _ _ hx
        obtain ⟨higc, hgv⟩ := pyDiv_ok_elim _ _ _ hg
        have hndrop : (order.drop st.removed_count).Nodup :=
          hnd.sublist (List.drop_sublist _ _)
        have hperm2 :
            ((st.G.remove_nodes_from ((order.drop st.removed_count).take chunk)).nodes).Perm
              (order.drop
                (st.removed_count + ((order.drop st.removed_count).take chunk).length)) := by
          have hstep :=
            filter_take_perm st.G.nodes (order.drop st.removed_count) chunk hndrop hinv.perm
          have hdd : (order.drop st.removed_count).drop chunk
              = order.drop (st.removed_count + chunk) :=
            List.drop_drop chunk st.removed_count order
          have hsame : order.drop (st.removed_count + chunk)
              = order.drop
                  (st.removed_count + ((order.drop st.removed_count).take chunk).length) := by
            rcases le_or_lt chunk (N - st.removed_count) with hc | hc
            · rw [hblen]
              congr 1
              omega
            · have h1 : order.drop (st.removed_count + chunk) = [] :=
                List.drop_eq_nil_of_le (by rw [hlen]; omega)
              have h2 : order.drop
                  (st.removed_count + ((order.drop st.removed_count).take chunk).length) = [] :=
                List.drop_eq_nil_of_le (by rw [hlen, hblen]; omega)
              rw [h1, h2]

          rw [← hsame, ← hdd]
          exact hstep
        have hchain2 : List.Chain' (· < ·) (st.x ++ [xv]) := by
          rw [List.chain'_append]
          refine ⟨hinv.chain, List.chain'_singleton _, ?_⟩
          intro a ha b hb
          have ha' : a = mkRat st.removed_count N := by
            rw [hinv.lastx] at ha
            simpa using ha.symm
          have hb' : b = xv := by
            simpa using hb.symm
          subst ha'
          subst hb'
          rw [hxv]
          exact (mkRat_nat_lt_iff _ _ _ hN0).mpr (by omega)
        have hhead2 : (st.x ++ [xv]).head? = some 0 :=
          head?_append_of_head? _ _ _ hinv.head0
        have hlast2 : (st.x ++ [xv]).getLast? =
            some (mkRat (st.removed_count + ((order.drop st.removed_count).take chunk).length) N) := by
          rw [List.getLast?_concat, hxv]
          push_cast
          rfl
        split at h
        · next hz =>
          injection h with h
          subst h
          have hnil :
              (st.G.remove_nodes_from ((order.drop st.removed_count).take chunk)).nodes = [] :=
            (get_gc_size_only_eq_zero_iff _).mp hz
          have hdnil : order.drop
              (st.removed_count + ((order.drop st.removed_count).take chunk).length) = [] := by
            have hp := hperm2
            rw [hnil] at hp
            exact hp.symm.eq_nil
          have hrc2 : st.removed_count + ((order.drop st.removed_count).take chunk).length = N := by
            have hlw := congrArg List.length hdnil
            rw [List.length_drop, hlen] at hlw
            simp only [List.length_nil] at hlw
            omega
          have hgv0 : gv = 0 := by
            rw [hgv, hz]
            exact_mod_cast mkRat_nat_zero igc
          refine ⟨?_, ?_, hchain2, hhead2, hlast2, ?_⟩
          · exact hrc2le
          · simp [hinv.len_x]
          · intro i hi
            rcases Nat.lt_trichotomy i st.gc.length with hlt | heq | hgt
            · rw [List.getElem?_append, if_pos hlt] at hi
              exact absurd (List.getElem?_mem hi) hinv.nozero
            · subst heq
              constructor
              · simp
              · have hixl : st.gc.length = st.x.length := hinv.len_x.symm
                rw [hixl, List.getElem?_concat_length, hxv, hrc2]
                rw [mkRat_nat_self N hN0]
            · have hnone : (st.gc ++ [gv])[i]? = none := by
                apply List.getElem?_eq_none
                simp only [List.length_append, List.length_singleton]
                omega
              rw [hnone] at hi
              cases hi
        · next hz =>
          refine ih _ _ h ⟨hperm2, hrc2le, ?_, hchain2, hhead2, hlast2, ?_⟩
          · simp [hinv.len_x]
          · intro hmem
            rcases List.mem_append.mp hmem with hm | hm
            · exact hinv.nozero hm
            · have hm' : (0 : Rat) = gv := by simpa using hm
              rw [hgv] at hm'
              exact hz ((mkRat_nat_eq_zero_iff _ _ higc).mp hm'.symm)
      · simp at h
      · simp at h

/-! ### Glue lemmas at the level of `simulate` -/

theorem mkSim_graph (g : Graph) : (AttackSimulator.mkSim g).graph = g := rfl

theorem mkSim_initial_size (g : Graph) :
    (AttackSimulator.mkSim g).initial_size = g.nodes.length := rfl

theorem mkSim_initial_gc (g : Graph) :
    (AttackSimulator.mkSim g).initial_gc_size = get_gc_size_only g := rfl

theorem pyChunk_error_elim (N : Nat) (steps : Int) (e : SimError)
    (h : pyChunk N steps = .error e) : steps = 0 ∧ e = .zeroDivision := by
  by_cases hs : steps = 0
  · simp [pyChunk, hs] at h
    exact ⟨hs, h.symm⟩
  · simp [pyChunk, hs] at h

/-- Inverting a successful `simulateAux`: the dispatch and the chunk
computation succeeded, and the loop ran from the initial readings. -/
theorem simulateAux_ok_elim (shuffle : List Nat → List Nat)
    (bc : Option Nat → Graph → Nat → Rat) (sim : AttackSimulator)
    (strategy : String) (steps : Int) (st : LoopState)
    (h : simulateAux shuffle bc sim strategy steps = .ok st) :
    ∃ order chunk, rankNodes shuffle bc sim.graph strategy = .ok order ∧
      pyChunk sim.graph.nodes.length steps = .ok chunk ∧
      simLoop sim.initial_size sim.initial_gc_size order chunk sim.graph.nodes.length
        steps.toNat (initState sim.graph) = .ok st := by
  simp only [simulateAux] at h
  split at h
  · simp at h
  · next order horder =>
    split at h
    · simp at h
    · next chunk hchunk =>
      exact ⟨order, chunk, horder, hchunk, h⟩

/-- Evaluating `simulate` when the dispatch fails. -/
theorem simulate_eq_rank_error (shuffle : List Nat → List Nat)
    (bc : Option Nat → Graph → Nat → Rat) (sim : AttackSimulator)
    (strategy : String) (steps : Int) (e : SimError)
    (h : rankNodes shuffle bc sim.graph strategy = .error e) :
    AttackSimulator.simulate shuffle bc sim strategy steps = .error e := by
  simp only [AttackSimulator.simulate, simulateAux]
  rw [h]
  rfl

/-- Evaluating `simulate` when the dispatch succeeds but the chunk
computation fails (`steps = 0`). -/
theorem simulate_eq_chunk_error (shuffle : List Nat → List Nat)
    (bc : Option Nat → Graph → Nat → Rat) (sim : AttackSimulator)
    (strategy : String) (steps : Int) (order : List Nat) (e : SimError)
    (horder : rankNodes shuffle bc sim.graph strategy = .ok order)
    (hc : pyChunk sim.graph.nodes.length steps = .error e) :
    AttackSimulator.simulate shuffle bc sim strategy steps = .error e := by
  simp only [AttackSimulator.simulate, simulateAux]
  rw [horder, hc]
  rfl

/-- Evaluating `simulate` when dispatch and chunk computation succeed. -/
theorem simulate_eq_loop (shuffle : List Nat → List Nat)
    (bc : Option Nat → Graph → Nat → Rat) (sim : AttackSimulator)
    (strategy : String) (steps : Int) (order : List Nat) (chunk : Nat)
    (horder : rankNodes shuffle bc sim.graph strategy = .ok order)
    (hc : pyChunk sim.graph.nodes.length steps = .ok chunk) :
    AttackSimulator.simulate shuffle bc sim strategy steps =
      (simLoop sim.initial_size sim.initial_gc_size order chunk
        sim.graph.nodes.length steps.toNat (initState sim.graph)).map
          LoopState.result := by
  simp only [AttackSimulator.simulate, simulateAux]
  rw [horder, hc]

/-- Whatever ranking branch was taken, the produced order is a permutation
of the node list (for the random branch, because a shuffle permutes). -/
theorem rankNodes_perm (shuffle : List Nat → List Nat)
    (bc : Option Nat → Graph → Nat → Rat) (G : Graph) (strategy : String)
    (order : List Nat) (hsh : ∀ l, (shuffle l).Perm l)
    (h : rankNodes shuffle bc G strategy = .ok order) : order.Perm G.nodes := by
  unfold rankNodes at h
  split_ifs at h
  · injection h with h
    subst h
    exact hsh G.nodes
  · injection h with h
    subst h
    exact sortDescBy_perm _ _
  · injection h with h
    subst h
    exact sortDescBy_perm _ _
  · injection h with h
    subst h
    exact sortDescBy_perm _ _

theorem rankNodes_ok_of_accepted (shuffle : List Nat → List Nat)
    (bc : Option Nat → Graph → Nat → Rat) (G : Graph) (strategy : String)
    (hacc : acceptedTag strategy) :
    ∃ order, rankNodes shuffle bc G strategy = .ok order := by
  unfold rankNodes
  split_ifs with h1 h2 h3 h4
  · exact ⟨_, rfl⟩
  · exact ⟨_, rfl⟩
  · exact ⟨_, rfl⟩
  · exact ⟨_, rfl⟩
  · rcases hacc with h | h | h | h
    · exact absurd h h1
    · exact absurd h h2
    · exact absurd h h3
    · exact absurd h h4

theorem rankNodes_error_of_not_accepted (shuffle : List Nat → List Nat)
    (bc : Option Nat → Graph → Nat → Rat) (G : Graph) (strategy : String)
    (hacc : ¬ acceptedTag strategy) :
    rankNodes shuffle bc G strategy = .error .unknownStrategy := by
  unfold acceptedTag at hacc
  push_neg at hacc
  unfold rankNodes
  rw [if_neg hacc.1, if_neg hacc.2.1, if_neg hacc.2.2.1, if_neg hacc.2.2.2]

/-- `simulate` fails with the unknown-strategy error exactly when the tag is
not accepted by the dispatch; every other failure is a division by zero. -/
theorem simulate_unknown_iff (shuffle : List Nat → List Nat)
    (bc : Option Nat → Graph → Nat → Rat) (sim : AttackSimulator)
    (strategy : String) (steps : Int) :
    AttackSimulator.simulate shuffle bc sim strategy steps = .error .unknownStrategy ↔
      ¬ acceptedTag strategy := by
  constructor
  · intro h hacc
    obtain ⟨order, horder⟩ := rankNodes_ok_of_accepted shuffle bc sim.graph strategy hacc
    cases hc : pyChunk sim.graph.nodes.length steps with
    | error e =>
      rw [simulate_eq_chunk_error shuffle bc sim strategy steps order e horder hc] at h
      injection h with h
      have h2 := (pyChunk_error_elim _ _ _ hc).2
      rw [h2] at h
      exact SimError.noConfusion h
    | ok chunk =>
      rw [simulate_eq_loop shuffle bc sim strategy steps order chunk horder hc] at h
      cases hl : simLoop sim.initial_size sim.initial_gc_size order chunk
          sim.graph.nodes.length steps.toNat (initState sim.graph) with
      | error e =>
        rw [hl] at h
        simp only [Except.map] at h
        injection h with h
        have h2 := simLoop_error_elim _ _ _ _ _ _ _ _ hl
        rw [h2] at h
        exact SimError.noConfusion h
      | ok st =>
        rw [hl] at h
        simp [Except.map] at h
  · intro hacc
    exact simulate_eq_rank_error shuffle bc sim strategy steps _
      (rankNodes_error_of_not_accepted shuffle bc sim.graph strategy hacc)

/-- Lines 55-56 compute the sampled-betweenness source count as
`min 1000 N` whenever the tag asks for the approximate variant, and no
sample bound otherwise. -/
theorem betweennessK_min (strategy : String) (N : Nat) :
    betweennessK strategy N =
      if pyIn "approx" strategy = true then some (min 1000 N) else none := by
  by_cases ha : pyIn "approx" strategy = true
  · simp only [betweennessK, ha, if_true]
    by_cases hN : 1000 > N
    · rw [if_pos hN, min_eq_right (le_of_lt hN)]
    · rw [if_neg hN, min_eq_left (by omega)]
  · simp [betweennessK, ha]

/-- Running `simulate` on the engine for a well-formed graph establishes the
loop exit property for the final loop state. -/
theorem simulate_main_post (g : Graph) (shuffle : List Nat → List Nat)
    (bc : Option Nat → Graph → Nat → Rat) (strategy : String) (steps : Int)
    (st : LoopState) (hsh : ∀ l, (shuffle l).Perm l) (hnd : g.nodes.Nodup)
    (haux : simulateAux shuffle bc (AttackSimulator.mkSim g) strategy steps = .ok st) :
    MainPost g.nodes.length st := by
  obtain ⟨order, chunk, horder, hchunk, hloop⟩ :=
    simulateAux_ok_elim _ _ _ _ _ _ haux
  rw [mkSim_graph] at horder
  rw [mkSim_graph] at hchunk
  rw [mkSim_graph, mkSim_initial_size, mkSim_initial_gc] at hloop
  have hperm := rankNodes_perm _ _ _ _ _ hsh horder
  have hlen : order.length = g.nodes.length := hperm.length_eq
  have hord_nd : order.Nodup := hperm.nodup_iff.mpr hnd
  have hchunkpos := pyChunk_ok_pos _ _ _ hchunk
  refine simLoop_main (get_gc_size_only g) order chunk g.nodes.length
    hchunkpos hlen hord_nd steps.toNat _ st hloop ?_
  refine ⟨?_, Nat.zero_le _, rfl, List.chain'_singleton _, rfl, ?_, ?_⟩
  · simpa using hperm.symm
  · have h0 : mkRat ((0 : Nat) : Int) g.nodes.length = 0 := mkRat_nat_zero _
    simp [initState, h0]
  · simp [initState]

/-! ### Session lemma (engine state across calls) -/

/-- Threading the engine through a sequence of `simulate` calls (as
`run_single_network_analysis` does) never changes it, and each call's result
is the one a fresh call on the same engine value would produce. -/
theorem runSession_spec (shuffle : List Nat → List Nat)
    (bc : Option Nat → Graph → Nat → Rat) :
    ∀ (calls : List (String × Int)) (sim : AttackSimulator),
      (runSession shuffle bc sim calls).2 = sim ∧
      (runSession shuffle bc sim calls).1 =
        calls.map (fun c => (AttackSimulator.simulateSt shuffle bc sim c.1 c.2).1) := by
  intro calls
  induction calls with
  | nil => intro sim; exact ⟨rfl, rfl⟩
  | cons c cs ih =>
    intro sim
    simp only [runSession, AttackSimulator.simulateSt, List.map_cons]
    refine ⟨(ih sim).1, ?_⟩
    rw [(ih sim).2]
    rfl

/-! ### The claims -/

/-- Claim C1, counterexample: on the one-node graph, `simulate` succeeds and
its `componentCount` sequence does NOT have one more element than
`fractionRemoved` — the claimed off-by-one relation is false. -/
theorem c1_counterexample :
    (AttackSimulator.simulate idShuffle zeroBc (AttackSimulator.mkSim g1) "degree" 50).map
      (fun r => r.frag.length == r.x.length + 1) = .ok false := by
  decide

/-- Claim C1, amended: whenever `simulate` succeeds, the three sequences of
the returned result have exactly the same length — the source gives `x` and
`gc` initial entries (`0.0`, `1.0`) just as it gives `frag` an initial
fragmentation reading, and each loop iteration appends one entry to each. -/
theorem c1_equal_lengths (shuffle : List Nat → List Nat)
    (bc : Option Nat → Graph → Nat → Rat) (sim : AttackSimulator)
    (strategy : String) (steps : Int) (r : SimResult)
    (h : AttackSimulator.simulate shuffle bc sim strategy steps = .ok r) :
    r.frag.length = r.x.length ∧ r.gc.length = r.x.length := by
  unfold AttackSimulator.simulate at h
  cases haux : simulateAux shuffle bc sim strategy steps with
  | error e =>
    rw [haux] at h
    simp [Except.map] at h
  | ok st =>
    rw [haux] at h
    simp only [Except.map] at h
    injection h with h
    subst h
    obtain ⟨order, chunk, horder, hchunk, hloop⟩ := simulateAux_ok_elim _ _ _ _ _ _ haux
    have hl := simLoop_ok_lengths _ _ _ _ _ _ _ _ hloop rfl rfl
    exact ⟨hl.2.trans hl.1.symm, hl.1.symm⟩

/-- Witness for C1 (amended), at the one-node graph. -/
theorem c1_equal_lengths_witness :
    (SimResult.mk [0, mkRat 1 1] [1, mkRat 0 1] [1, 0]).frag.length =
        (SimResult.mk [0, mkRat 1 1] [1, mkRat 0 1] [1, 0]).x.length ∧
      (SimResult.mk [0, mkRat 1 1] [1, mkRat 0 1] [1, 0]).gc.length =
        (SimResult.mk [0, mkRat 1 1] [1, mkRat 0 1] [1, 0]).x.length :=
  c1_equal_lengths idShuffle zeroBc (AttackSimulator.mkSim g1) "degree" 50 _ (by decide)

/-- Claim C2 (a defect of the code): with `steps = 0` the chunk computation
`int(N / steps)` raises an unhandled ZeroDivisionError, and with negative
`steps` the call neither fails nor performs a batch — it returns only the
initial readings (here on a two-node directed graph). -/
theorem c2_nonpositive_steps_behavior :
    AttackSimulator.simulate idShuffle zeroBc (AttackSimulator.mkSim gDir2) "random" 0 =
        .error .zeroDivision ∧
      AttackSimulator.simulate idShuffle zeroBc (AttackSimulator.mkSim gDir2) "random" (-5) =
        .ok { x := [0], gc := [1], frag := [1] } := by
  decide

/-- Claim C3: on any graph whose initial giant-component size is `0` (that
is, the empty graph), `simulate` with any accepted strategy and a nonzero
step count returns the trivial series — one reading per list, recorded
before the loop — and never divides by the stored giant-component size. -/
theorem c3_empty_graph_trivial (g : Graph) (shuffle : List Nat → List Nat)
    (bc : Option Nat → Graph → Nat → Rat) (strategy : String) (steps : Int)
    (hgc : get_gc_size_only g = 0) (hacc : acceptedTag strategy)
    (hsteps : steps ≠ 0) :
    AttackSimulator.simulate shuffle bc (AttackSimulator.mkSim g) strategy steps =
      .ok { x := [0], gc := [1], frag := [0] } := by
  have hnil : g.nodes = [] := (get_gc_size_only_eq_zero_iff g).mp hgc
  obtain ⟨order, horder⟩ := rankNodes_ok_of_accepted shuffle bc g strategy hacc
  have hchunk : pyChunk g.nodes.length steps =
      .ok (max 1 (Int.tdiv g.nodes.length steps)).toNat := by
    simp [pyChunk, hsteps]
  rw [simulate_eq_loop shuffle bc (AttackSimulator.mkSim g) strategy steps order _
    horder hchunk]
  have hdone := simLoop_done (AttackSimulator.mkSim g).initial_size
    (AttackSimulator.mkSim g).initial_gc_size order
    (max 1 (Int.tdiv g.nodes.length steps)).toNat
    (AttackSimulator.mkSim g).graph.nodes.length steps.toNat
    (initState (AttackSimulator.mkSim g).graph)
    (by rw [mkSim_graph]; simp [initState, hnil])
  rw [hdone]
  have hcc : number_connected_components g = 0 := by
    unfold number_connected_components
    rw [hnil]
    rfl
  simp [Except.map, initState, LoopState.result, mkSim_graph, hcc]

/-- Witness for C3, at the empty graph with the random strategy. -/
theorem c3_empty_graph_trivial_witness :
    AttackSimulator.simulate idShuffle zeroBc (AttackSimulator.mkSim gEmpty) "random" 50 =
      .ok { x := [0], gc := [1], frag := [0] } :=
  c3_empty_graph_trivial gEmpty idShuffle zeroBc "random" 50 (by decide)
    (Or.inl rfl) (by decide)

/-- Claim C4: the ranking order is computed once, against the working copy
before any removal; the batch removed at iteration `i` is the
`chunk`-bounded slice of that fixed order starting at the number of nodes
already removed (the total length of the previous batches). -/
theorem c4_static_ranking_slices (g : Graph) (shuffle : List Nat → List Nat)
    (bc : Option Nat → Graph → Nat → Rat) (strategy : String) (steps : Int)
    (order : List Nat) (chunk : Nat) (st : LoopState)
    (horder : rankNodes shuffle bc g strategy = .ok order)
    (hchunk : pyChunk g.nodes.length steps = .ok chunk)
    (haux : simulateAux shuffle bc (AttackSimulator.mkSim g) strategy steps = .ok st) :
    ∀ i, i < st.batches.length →
      st.batches[i]? = some ((order.drop (sumLens (st.batches.take i))).take chunk) := by
  obtain ⟨order2, chunk2, horder2, hchunk2, hloop⟩ := simulateAux_ok_elim _ _ _ _ _ _ haux
  rw [mkSim_graph] at horder2 hchunk2
  have ho : order2 = order := by
    have h := horder.symm.trans horder2
    injection h with h
    exact h.symm
  have hc : chunk2 = chunk := by
    have h := hchunk.symm.trans hchunk2
    injection h with h
    exact h.symm
  subst ho
  subst hc
  intro i hi
  exact simLoop_batches _ _ _ _ _ _ _ _ hloop rfl
    (by intro j hj; simp [initState] at hj) i hi

/-- Witness for C4: the path graph on three nodes, degree strategy, three
steps; the second removed batch is the slice of the fixed order `[1, 0, 2]`
starting after the one node already removed. -/
theorem c4_static_ranking_slices_witness :
    ([[1], [0], [2]] : List (List Nat))[1]? =
      some ((([1, 0, 2] : List Nat).drop
        (sumLens (([[1], [0], [2]] : List (List Nat)).take 1))).take 1) :=
  c4_static_ranking_slices gPath3 idShuffle zeroBc "degree" 3 [1, 0, 2] 1
    (LoopState.mk (Graph.mk [] [] false) 3
      [0, mkRat 1 3, mkRat 2 3, mkRat 3 3]
      [1, mkRat 1 3, mkRat 1 3, mkRat 0 3] [1, 2, 1, 0] [[1], [0], [2]])
    (by decide) (by decide) (by decide) 1 (by decide)

/-- Claim C5: for every (duplicate-free) graph and every run of `simulate`
that returns, the `fractionRemoved` sequence is strictly increasing (hence
non-decreasing), starts at `0.0`, and its last entry is at most `1.0`. -/
theorem c5_fraction_removed_series (g : Graph) (shuffle : List Nat → List Nat)
    (bc : Option Nat → Graph → Nat → Rat) (strategy : String) (steps : Int)
    (r : SimResult) (hsh : ∀ l, (shuffle l).Perm l) (hnd : g.nodes.Nodup)
    (h : AttackSimulator.simulate shuffle bc (AttackSimulator.mkSim g) strategy steps =
      .ok r) :
    List.Chain' (· ≤ ·) r.x ∧ List.Chain' (· < ·) r.x ∧ r.x.head? = some 0 ∧
      ∀ v, r.x.getLast? = some v → v ≤ 1 := by
  unfold AttackSimulator.simulate at h
  cases haux : simulateAux shuffle bc (AttackSimulator.mkSim g) strategy steps with
  | error e =>
    rw [haux] at h
    simp [Except.map] at h
  | ok st =>
    rw [haux] at h
    simp only [Except.map] at h
    injection h with h
    subst h
    have hpost := simulate_main_post g shuffle bc strategy steps st hsh hnd haux
    refine ⟨List.Chain'.imp (fun a b hab => le_of_lt hab) hpost.chain,
      hpost.chain, hpost.head0, ?_⟩
    intro v hv
    have hv' : some (mkRat (st.removed_count : Int) g.nodes.length) = some v :=
      hpost.lastx.symm.trans hv
    injection hv' with hv'
    rw [← hv']
    exact mkRat_nat_le_one _ _ hpost.rc_le

/-- Witness for C5, at the one-node graph. -/
theorem c5_fraction_removed_series_witness :
    List.Chain' (· ≤ ·) ([0, mkRat 1 1] : List Rat) ∧
      List.Chain' (· < ·) ([0, mkRat 1 1] : List Rat) ∧
      ([0, mkRat 1 1] : List Rat).head? = some 0 ∧
      ∀ v, ([0, mkRat 1 1] : List Rat).getLast? = some v → v ≤ 1 :=
  c5_fraction_removed_series g1 idShuffle zeroBc "degree" 50
    (SimResult.mk [0, mkRat 1 1] [1, mkRat 0 1] [1, 0])
    (fun l => List.Perm.refl l) (by decide) (by decide)

/-- Claim C6: a `giantComponentFraction` reading of `0` can only be the very
last reading of the run (the loop breaks immediately after recording it, so
no further batch is removed and no further reading appended), and at that
reading the fraction removed is `1` — every node has been removed from the
working copy. -/
theorem c6_gc_zero_terminal (g : Graph) (shuffle : List Nat → List Nat)
    (bc : Option Nat → Graph → Nat → Rat) (strategy : String) (steps : Int)
    (r : SimResult) (hsh : ∀ l, (shuffle l).Perm l) (hnd : g.nodes.Nodup)
    (h : AttackSimulator.simulate shuffle bc (AttackSimulator.mkSim g) strategy steps =
      .ok r) :
    ∀ i, r.gc[i]? = some 0 → i + 1 = r.gc.length ∧ r.x[i]? = some 1 := by
  unfold AttackSimulator.simulate at h
  cases haux : simulateAux shuffle bc (AttackSimulator.mkSim g) strategy steps with
  | error e =>
    rw [haux] at h
    simp [Except.map] at h
  | ok st =>
    rw [haux] at h
    simp only [Except.map] at h
    injection h with h
    subst h
    exact (simulate_main_post g shuffle bc strategy steps st hsh hnd haux).zero_end

/-- Witness for C6, at the one-node graph: the zero reading is the last one
and the fraction removed there is `1`. -/
theorem c6_gc_zero_terminal_witness :
    (1 : Nat) + 1 = ([1, mkRat 0 1] : List Rat).length ∧
      ([0, mkRat 1 1] : List Rat)[1]? = some 1 :=
  c6_gc_zero_terminal g1 idShuffle zeroBc "degree" 50
    (SimResult.mk [0, mkRat 1 1] [1, mkRat 0 1] [1, 0])
    (fun l => List.Perm.refl l) (by decide) (by decide) 1 (by decide)

/-- Claim C7: an unrecognized strategy tag makes `simulate` fail with the
unknown-strategy (`ValueError`) error, and the engine — in state-passing
form — comes out exactly as it went in: no graph mutation has happened and
the caller can retry. -/
theorem c7_invalid_strategy_error (g : Graph) (shuffle : List Nat → List Nat)
    (bc : Option Nat → Graph → Nat → Rat) (strategy : String) (steps : Int)
    (hacc : ¬ acceptedTag strategy) :
    AttackSimulator.simulateSt shuffle bc (AttackSimulator.mkSim g) strategy steps =
      (.error .unknownStrategy, AttackSimulator.mkSim g) := by
  unfold AttackSimulator.simulateSt
  rw [(simulate_unknown_iff shuffle bc (AttackSimulator.mkSim g) strategy steps).mpr hacc]

/-- Witness for C7, at the tag "foo". -/
theorem c7_invalid_strategy_error_witness :
    AttackSimulator.simulateSt idShuffle zeroBc (AttackSimulator.mkSim gPath3) "foo" 50 =
      (.error .unknownStrategy, AttackSimulator.mkSim gPath3) :=
  c7_invalid_strategy_error gPath3 idShuffle zeroBc "foo" 50 (by decide)

/-- Claim C8: the engine stores the graph value it was constructed from, a
whole session of `simulate` calls leaves the engine (hence the source graph
it holds) unchanged, and every call's result is what a fresh call on the
originally-constructed engine yields — each run works on its own working
copy and never mutates shared state. -/
theorem c8_source_graph_immutable (shuffle : List Nat → List Nat)
    (bc : Option Nat → Graph → Nat → Rat) (g : Graph)
    (calls : List (String × Int)) :
    (AttackSimulator.mkSim g).graph = g ∧
    (runSession shuffle bc (AttackSimulator.mkSim g) calls).2 =
      AttackSimulator.mkSim g ∧
    (runSession shuffle bc (AttackSimulator.mkSim g) calls).1 =
      calls.map (fun c =>
        (AttackSimulator.simulateSt shuffle bc (AttackSimulator.mkSim g) c.1 c.2).1) :=
  ⟨rfl, (runSession_spec shuffle bc calls _).1, (runSession_spec shuffle bc calls _).2⟩

/-- Claim C9, counterexample: on a directed two-node, one-edge graph the
code computes `p = 2E/(N·(N-1)) = 1`, not the directed analogue
`E/(N·(N-1)) = 1/2` the claim states for directed sources. -/
theorem c9_counterexample :
    run_random_baseline_p gDir2 = 1 ∧ specBaselineP gDir2 = 1 / 2 ∧
      run_random_baseline_p gDir2 ≠ specBaselineP gDir2 := by
  have h1 : run_random_baseline_p gDir2 = 1 := by
    norm_num [run_random_baseline_p, gDir2]
  have h2 : specBaselineP gDir2 = 1 / 2 := by
    norm_num [specBaselineP, gDir2]
  refine ⟨h1, h2, ?_⟩
  rw [h1, h2]
  norm_num

/-- Claim C9, amended: the Baseline Generator uses
`p = 2E/(N·(N-1))` whenever `N > 1` — for directed sources exactly as for
undirected ones (the formula never reads the directedness flag) — and
`p = 0` when `N ≤ 1`; at `N = 100`, `E = 500` this gives
`1000/9900 = 10/99 ≈ 0.10101`. -/
theorem c9_baseline_p :
    (∀ (G : Graph) (b : Bool),
      run_random_baseline_p { G with directed := b } = run_random_baseline_p G) ∧
    (∀ G : Graph, G.nodes.length ≤ 1 → run_random_baseline_p G = 0) ∧
    (∀ G : Graph, 1 < G.nodes.length →
      run_random_baseline_p G =
        (2 * G.edges.length : Rat) /
          ((G.nodes.length : Rat) * ((G.nodes.length : Rat) - 1))) ∧
    run_random_baseline_p g100 = 10 / 99 := by
  refine ⟨fun G b => rfl, ?_, ?_, ?_⟩
  · intro G h
    unfold run_random_baseline_p
    rw [if_neg (by omega)]
  · intro G h
    unfold run_random_baseline_p
    rw [if_pos h]
  · have hn : g100.nodes.length = 100 := by simp [g100]
    have he : g100.edges.length = 500 := by simp [g100]
    unfold run_random_baseline_p
    rw [hn, he]
    norm_num

/-- Witness for C9 (amended), at the empty graph and the two-node directed
graph. -/
theorem c9_baseline_p_witness :
    run_random_baseline_p gEmpty = 0 ∧
      run_random_baseline_p gDir2 =
        (2 * gDir2.edges.length : Rat) /
          ((gDir2.nodes.length : Rat) * ((gDir2.nodes.length : Rat) - 1)) :=
  ⟨c9_baseline_p.2.1 gEmpty (by decide), c9_baseline_p.2.2.1 gDir2 (by decide)⟩

/-- Claim C10: strategy dispatch is substring-based: `simulate` raises the
unknown-strategy error exactly when the tag is none of the three exact tags
and does not contain the substring "betweenness"; and for tags containing
"betweenness", the sample size is `min 1000 N` when the tag also contains
"approx" and absent (exact betweenness) otherwise. -/
theorem c10_dispatch_substring (g : Graph) (shuffle : List Nat → List Nat)
    (bc : Option Nat → Graph → Nat → Rat) (strategy : String) (steps : Int) :
    (AttackSimulator.simulate shuffle bc (AttackSimulator.mkSim g) strategy steps =
        .error .unknownStrategy ↔
      ¬ (strategy = "random" ∨ strategy = "degree" ∨ strategy = "indegree" ∨
          pyIn "betweenness" strategy = true)) ∧
    (pyIn "betweenness" strategy = true →
      betweennessK strategy g.nodes.length =
        if pyIn "approx" strategy = true then some (min 1000 g.nodes.length) else none) :=
  ⟨simulate_unknown_iff shuffle bc (AttackSimulator.mkSim g) strategy steps,
    fun _ => betweennessK_min strategy g.nodes.length⟩

/-- Witness for C10: a tag containing both substrings gets the sampled
variant with the node-count-capped sample size. -/
theorem c10_dispatch_substring_witness :
    betweennessK "x_betweenness_approx" gPath3.nodes.length =
      if pyIn "approx" "x_betweenness_approx" = true
        then some (min 1000 gPath3.nodes.length) else none :=
  (c10_dispatch_substring gPath3 idShuffle zeroBc "x_betweenness_approx" 50).2 (by decide)

end AttackSim
